import Mathlib

/-
Verification development for the dnsbench concurrent DNS query engine.

Modelling conventions (shallow embedding of the Go source):
- Go float64 latency values are modelled as rationals; the float64 NaN
  produced for an empty latency batch is modelled as the value none of an
  Option field (a real latency is some q).
- Go time.Duration (int64 nanoseconds, non-negative in this program) is
  modelled as a natural number of nanoseconds.
- Go int counters are modelled as integers.
- The Go context is modelled as a cancellation oracle consulted once per
  cancellation check (ctx.Err() or a select on ctx.Done()); rand.N jitter
  is modelled as an oracle from attempt index and current backoff to a
  duration; the network lookup is modelled as an oracle from attempt index
  to an observed (elapsed, result) pair.
- Effectful functions return, next to their value, a trace of the events
  (attempts, completed backoff waits, reporter callbacks) they performed.
-/

namespace DnsBench

/-- Aggregate latency statistics for one resolver (struct Stats in
benchmark.go).  Min, Max and Mean are none exactly when the Go code stores
NaN in the corresponding float64 field. -/
structure Stats where
  Min : Option ℚ
  Max : Option ℚ
  Mean : Option ℚ
  Count : ℤ
  Errors : ℤ
  Total : ℤ
deriving DecidableEq

/-- Stats.IsValid from benchmark.go: Count > 0 and Mean is not NaN. -/
def Stats.IsValid (s : Stats) : Bool :=
  decide (0 < s.Count) && s.Mean.isSome

/-- Stats.SuccessRate from benchmark.go: 0 when Total is 0, otherwise
Count divided by Total. -/
def Stats.SuccessRate (s : Stats) : ℚ :=
  if s.Total = 0 then 0 else (s.Count : ℚ) / (s.Total : ℚ)

/-- calculateStats from benchmark.go.  The Go code sorts the slice in
place ascending (sort.Float64s), then reads the first element, the last
element and the mean of the sorted slice. -/
def calculateStats (latencies : List ℚ) (errs total : ℤ) : Stats :=
  if latencies = [] then
    { Min := none, Max := none, Mean := none, Count := 0, Errors := errs, Total := total }
  else
    let sorted := List.insertionSort (· ≤ ·) latencies
    { Min := sorted.head?
      Max := sorted.getLast?
      Mean := some (sorted.sum / (sorted.length : ℚ))
      Count := (sorted.length : ℤ)
      Errors := errs
      Total := total }

/-- One nanosecond-counted second, the unit of Go time.Second. -/
def nsPerSecond : ℕ := 1000000000

/-- Events observable from a run of retryWithBackoff: an invocation of the
operation at a given attempt index, and a completed backoff wait of a given
duration.  An interrupted wait (the select taking the ctx.Done branch)
produces no wait event. -/
inductive RetryEvent where
  | attempt (i : ℕ)
  | wait (d : ℕ)
deriving DecidableEq

/-- The (val, err) pair returned by retryWithBackoff, split by error
identity: ok is a nil error, failed is the last operation error, canceled
is the ctx.Err() cancellation error (carrying the current val, which is
none when no attempt has run yet), configError is the maxRetries
validation error. -/
inductive RetryOutcome (T E : Type) where
  | ok (v : T)
  | failed (v : T) (e : E)
  | canceled (last : Option T)
  | configError
deriving DecidableEq

/-- The loop body of retryWithBackoff (utils.go).  Arguments mirror the Go
state: remaining iterations (maxRetries - attempt), the attempt counter,
the current backoff, a running index chk numbering the cancellation checks
(the ctx.Err() check before an attempt consumes index chk, the select
during the wait consumes chk + 1), and the value of the Go val variable so
far.  The canceled oracle answers each cancellation check; the jitter
oracle models rand.N(backoff) from attempt index and current backoff.  The
remaining = 0 base case is never reached when the initial remaining is at
least 1 (the configuration guard in retryWithBackoff ensures this). -/
def retryLoop {T E : Type} (f : ℕ → T × Option E) (canceled : ℕ → Bool)
    (jitter : ℕ → ℕ → ℕ) (maxBackoff : ℕ) :
    ℕ → ℕ → ℕ → ℕ → Option T → RetryOutcome T E × List RetryEvent
  | 0, _, _, _, last => (.canceled last, [])
  | remaining + 1, attempt, backoff, chk, last =>
    if canceled chk then (.canceled last, [])
    else
      match f attempt with
      | (v, none) => (.ok v, [.attempt attempt])
      | (v, some e) =>
        if remaining = 0 then (.failed v e, [.attempt attempt])
        else
          let w := backoff / 2 + jitter attempt backoff
          if canceled (chk + 1) then (.canceled (some v), [.attempt attempt])
          else
            let r := retryLoop f canceled jitter maxBackoff remaining (attempt + 1)
              (min (backoff * 2) maxBackoff) (chk + 2) (some v)
            (r.1, .attempt attempt :: .wait w :: r.2)

/-- retryWithBackoff from utils.go.  maxRetries is a Go int; a value below
1 is rejected with a configuration error before any attempt.  The initial
backoff is min(initialBackoff, maxBackoff). -/
def retryWithBackoff {T E : Type} (f : ℕ → T × Option E) (canceled : ℕ → Bool)
    (jitter : ℕ → ℕ → ℕ) (maxRetries : ℤ) (initialBackoff maxBackoff : ℕ) :
    RetryOutcome T E × List RetryEvent :=
  if maxRetries < 1 then (.configError, [])
  else retryLoop f canceled jitter maxBackoff maxRetries.toNat 0
    (min initialBackoff maxBackoff) 0 none

/-- Number of operation invocations recorded in a retry trace. -/
def countAttempts (tr : List RetryEvent) : ℕ :=
  (tr.filter fun e => match e with | .attempt _ => true | .wait _ => false).length

/-- The completed backoff waits recorded in a retry trace, in order. -/
def waitsOf (tr : List RetryEvent) : List ℕ :=
  tr.filterMap fun e => match e with | .wait d => some d | .attempt _ => none

/-- The backoff value before the wait following attempt j, starting from
backoff b: doubled after each wait and capped at maxBackoff. -/
def backoffSeq (maxBackoff b : ℕ) : ℕ → ℕ
  | 0 => b
  | j + 1 => min (backoffSeq maxBackoff b j * 2) maxBackoff

/-- The trace of k failed attempts each followed by a completed backoff
wait, starting at attempt index a with backoff b. -/
def failTrace (jitter : ℕ → ℕ → ℕ) (maxBackoff : ℕ) : ℕ → ℕ → ℕ → List RetryEvent
  | _, _, 0 => []
  | a, b, k + 1 =>
    .attempt a :: .wait (b / 2 + jitter a b) ::
      failTrace jitter maxBackoff (a + 1) (min (b * 2) maxBackoff) k

/-- Result of one LookupHost call as observed by QueryDNS: either a list
of addresses or a lookup error; isDeadline records whether the error
matches context.DeadlineExceeded under errors.Is. -/
inductive LookupResult where
  | ok (addrs : List String)
  | err (isDeadline : Bool)
deriving DecidableEq

/-- The per-attempt error classification produced by the try closure in
Resolver.QueryDNS. -/
inductive QueryErr where
  | lookupErr (isDeadline : Bool)
  | deadlineExceeded
  | noAddresses
deriving DecidableEq

/-- Whether errors.Is(err, context.DeadlineExceeded) holds for a
per-attempt error. -/
def QueryErr.isDeadline : QueryErr → Bool
  | .lookupErr d => d
  | .deadlineExceeded => true
  | .noAddresses => false

/-- The try closure of Resolver.QueryDNS: one lookup attempt observed
through a network oracle net giving elapsed nanoseconds and the lookup
result for each attempt index.  A lookup error fails the attempt; an
elapsed time strictly above the timeout is a deadline error even when the
lookup succeeded; an empty address list is a no-addresses error. -/
def tryQuery (net : ℕ → ℕ × LookupResult) (timeout : ℕ) (attempt : ℕ) :
    ℕ × Option QueryErr :=
  let r := net attempt
  match r.2 with
  | .err d => (r.1, some (.lookupErr d))
  | .ok addrs =>
    if timeout < r.1 then (r.1, some .deadlineExceeded)
    else if addrs = [] then (r.1, some .noAddresses)
    else (r.1, none)

/-- The error returned by Resolver.QueryDNS: the empty-domain validation
error, the DNS-query-timeout wrap (final error matches DeadlineExceeded)
or the generic DNS-query-failed wrap. -/
inductive QueryDNSError where
  | emptyDomain
  | timeoutWrap
  | failureWrap
deriving DecidableEq

/-- Externally visible actions of one QueryDNS call: acquiring the
concurrency-limiter slot, issuing a network lookup for an attempt, and a
completed backoff wait. -/
inductive QueryEvent where
  | acquireSem
  | lookup (i : ℕ)
  | waitBackoff (d : ℕ)
deriving DecidableEq

/-- Renaming of retry-trace events into QueryDNS events: each retry
attempt is a network lookup. -/
def retryEventToQueryEvent : RetryEvent → QueryEvent
  | .attempt i => .lookup i
  | .wait d => .waitBackoff d

/-- Resolver.QueryDNS from resolver.go.  concurrency is the clamped
semaphore capacity of the Resolver; net, canceled and jitter are the
oracles described above; ctxErrIsDeadline tells whether ctx.Err(), when
cancellation is observed, is context.DeadlineExceeded.  An empty domain is
rejected before the semaphore is touched and before any attempt.  With
retry enabled the retrier runs up to 10 attempts with initial backoff 2s
capped at 60s; with retry disabled exactly 1 attempt.  On any error the
returned duration is 0 and the error is wrapped as a timeout when it
matches DeadlineExceeded, as a failure otherwise. -/
def QueryDNS (concurrency : ℕ) (net : ℕ → ℕ × LookupResult) (canceled : ℕ → Bool)
    (jitter : ℕ → ℕ → ℕ) (ctxErrIsDeadline : Bool) (domain : String) (timeout : ℕ)
    (retry : Bool) : (ℕ × Option QueryDNSError) × List QueryEvent :=
  if domain = "" then ((0, some .emptyDomain), [])
  else
    let semEvents : List QueryEvent := if 0 < concurrency then [.acquireSem] else []
    let retries : ℤ := if retry then 10 else 1
    let res := retryWithBackoff (tryQuery net timeout) canceled jitter retries
      (2 * nsPerSecond) (60 * nsPerSecond)
    let events := semEvents ++ res.2.map retryEventToQueryEvent
    match res.1 with
    | .ok v => ((v, none), events)
    | .failed _ e =>
      ((0, some (if e.isDeadline then .timeoutWrap else .failureWrap)), events)
    | .canceled _ =>
      ((0, some (if ctxErrIsDeadline then .timeoutWrap else .failureWrap)), events)
    | .configError => ((0, some .failureWrap), events)

/-- The run-configuration fields consumed by the benchmark core
(struct Config): repeat count, per-query lookup timeout in nanoseconds,
max concurrency and warmup-run count. -/
structure Config where
  Repeats : ℕ
  LookupTimeout : ℕ
  MaxConcurrency : ℕ
  WarmupRuns : ℕ
deriving DecidableEq

/-- Queries issued during one benchmarkResolver pass: warmup queries
(issued by doWarmupRuns with the given timeout and retry flag) and the
measured query of a task. -/
inductive BenchEvent where
  | warmupQuery (domain : String) (timeout : ℕ) (retry : Bool)
  | measuredQuery (domain : String) (timeout : ℕ) (retry : Bool)
deriving DecidableEq

/-- The queries issued by one worker task of benchmarkResolver for one
domain: when WarmupRuns > 0 the task first runs doWarmupRuns (WarmupRuns
queries with a fixed 1 second timeout and retry disabled) and waits for
them, then issues its measured query with the configured lookup timeout
and retry enabled. -/
def benchTaskTrace (cfg : Config) (domain : String) : List BenchEvent :=
  (if 0 < cfg.WarmupRuns then
    List.replicate cfg.WarmupRuns (BenchEvent.warmupQuery domain nsPerSecond false)
  else []) ++ [BenchEvent.measuredQuery domain cfg.LookupTimeout true]

/-- The (repeat index, domain) worker tasks spawned by benchmarkResolver,
in spawn order: for every repeat, one task per domain. -/
def benchTasks (cfg : Config) (domains : List String) : List (ℕ × String) :=
  (List.range cfg.Repeats).flatMap fun r => domains.map fun d => (r, d)

/-- benchmarkResolver from benchmark.go, serialized.  The measured query
outcomes are abstracted by the oracle measure, giving for each (repeat,
domain) task either some latency in milliseconds or none for an error
(QueryDNS is modelled separately); only measured outcomes are collected
into the latency list and the error count, and total is fixed upfront as
len(domains) * Repeats. -/
def benchmarkResolver (cfg : Config) (domains : List String)
    (measure : ℕ → String → Option ℚ) : Stats × List BenchEvent :=
  let tasks := benchTasks cfg domains
  let trace := tasks.flatMap fun t => benchTaskTrace cfg t.2
  let outcomes := tasks.map fun t => measure t.1 t.2
  let lats := outcomes.filterMap id
  let errs := (outcomes.filter fun o => o.isNone).length
  (calculateStats lats (errs : ℤ) ((domains.length * cfg.Repeats : ℕ) : ℤ), trace)

/-- Number of warmup queries for a given domain in a benchmark trace. -/
def countWarmup (d : String) (tr : List BenchEvent) : ℕ :=
  (tr.filter fun e =>
    match e with
    | .warmupQuery d2 _ _ => d2 == d
    | .measuredQuery _ _ _ => false).length

/-- DNSServer from benchmark.go. -/
structure DNSServer where
  Name : String
  Addr : String
deriving DecidableEq

/-- BenchmarkResult from benchmark.go. -/
structure BenchmarkResult where
  Server : DNSServer
  Stats : Stats
deriving DecidableEq

/-- The run-level errors of runBenchmark: the two input validation errors
and the error returned by ctx.Err() on cancellation. -/
inductive RunError where
  | noServers
  | noDomains
  | canceledErr
deriving DecidableEq

/-- Calls made on the BenchmarkReporter by runBenchmark, in order. -/
inductive ReporterCall where
  | onStart (totalResolvers : ℕ) (domains : List String)
  | onResolverStart (s : DNSServer) (index total : ℕ)
  | onResolverDone (s : DNSServer) (st : Stats)
  | onComplete (results : List BenchmarkResult) (e : Option RunError)
deriving DecidableEq

/-- Whether a reporter call is OnComplete. -/
def ReporterCall.isOnComplete : ReporterCall → Bool
  | .onComplete _ _ => true
  | _ => false

/-- The server loop of runBenchmark.  cancelAt models the caller context:
the check before iteration i observes a cancellation exactly when
cancelAt is at most i.  bench abstracts one full benchmarkResolver pass
(whose internals are modelled separately); total is len(servers) for the
reporter payloads.  The loop returns the completed results, the run error
and the reporter calls it performed. -/
def runLoop (bench : DNSServer → Stats) (cancelAt : ℕ) (total : ℕ) :
    List DNSServer → ℕ → List BenchmarkResult × Option RunError × List ReporterCall
  | [], _ => ([], none, [])
  | s :: rest, i =>
    if cancelAt ≤ i then ([], some .canceledErr, [])
    else
      let st := bench s
      let r := runLoop bench cancelAt total rest (i + 1)
      (⟨s, st⟩ :: r.1, r.2.1,
        .onResolverStart s (i + 1) total :: .onResolverDone s st :: r.2.2)

/-- runBenchmark from benchmark.go.  Empty server or domain lists are
rejected with a validation error before OnStart; otherwise OnStart is
reported, the servers are benchmarked strictly sequentially with a
cancellation check before each pass, and OnComplete is reported once with
the collected results and the run error, which are then returned. -/
def runBenchmark (bench : DNSServer → Stats) (cancelAt : ℕ)
    (servers : List DNSServer) (domains : List String) :
    (List BenchmarkResult × Option RunError) × List ReporterCall :=
  if servers = [] then (([], some .noServers), [])
  else if domains = [] then (([], some .noDomains), [])
  else
    let r := runLoop bench cancelAt servers.length servers 0
    ((r.1, r.2.1),
      .onStart servers.length domains :: r.2.2 ++ [.onComplete r.1 r.2.1])

/-- In a list sorted ascending, the head is a lower bound. -/
theorem sorted_head_le {l : List ℚ} (hs : l.Sorted (· ≤ ·)) (hne : l ≠ []) :
    ∀ x ∈ l, l.head hne ≤ x := by
  cases l with
  | nil => exact absurd rfl hne
  | cons a t =>
    rw [List.sorted_cons] at hs
    intro x hx
    rcases List.mem_cons.mp hx with h | h
    · simp [h]
    · simpa using hs.1 x h

/-- In a list sorted ascending, the last element is an upper bound. -/
theorem sorted_le_getLast {l : List ℚ} (hs : l.Sorted (· ≤ ·)) (hne : l ≠ []) :
    ∀ x ∈ l, x ≤ l.getLast hne := by
  induction l with
  | nil => exact absurd rfl hne
  | cons a t ih =>
    rw [List.sorted_cons] at hs
    intro x hx
    cases t with
    | nil =>
      simp only [List.mem_singleton] at hx
      simp [hx, List.getLast]
    | cons b u =>
      rw [List.getLast_cons (by simp)]
      rcases List.mem_cons.mp hx with h | h
      · exact h ▸ le_trans (hs.1 _ (List.getLast_mem _)) (le_refl _)
      · exact ih hs.2 (by simp) x h

/-- The arithmetic mean of a list lies between any lower bound and any
upper bound of its elements. -/
theorem mean_bounds {l : List ℚ} (hne : l ≠ []) {m M : ℚ}
    (hm : ∀ x ∈ l, m ≤ x) (hM : ∀ x ∈ l, x ≤ M) :
    m ≤ l.sum / (l.length : ℚ) ∧ l.sum / (l.length : ℚ) ≤ M := by
  have hlpos : 0 < (l.length : ℚ) := by
    have : 0 < l.length := List.length_pos.mpr hne
    exact_mod_cast this
  constructor
  · rw [le_div_iff₀ hlpos]
    have h := List.card_nsmul_le_sum l m hm
    rwa [nsmul_eq_mul, mul_comm] at h
  · rw [div_le_iff₀ hlpos]
    have h := List.sum_le_card_nsmul l M hM
    rwa [nsmul_eq_mul, mul_comm] at h

/-- Shared characterization of calculateStats on a non-empty latency list:
Min is the true minimum, Max the true maximum, Mean the arithmetic mean,
Count the length, with errs and total passed through. -/
theorem calcStats_nonempty (l : List ℚ) (errs total : ℤ) (hne : l ≠ []) :
    (∃ m, (calculateStats l errs total).Min = some m ∧ m ∈ l ∧ ∀ x ∈ l, m ≤ x)
    ∧ (∃ M, (calculateStats l errs total).Max = some M ∧ M ∈ l ∧ ∀ x ∈ l, x ≤ M)
    ∧ (calculateStats l errs total).Mean = some (l.sum / (l.length : ℚ))
    ∧ (calculateStats l errs total).Count = (l.length : ℤ)
    ∧ (calculateStats l errs total).Errors = errs
    ∧ (calculateStats l errs total).Total = total := by
  have hperm := List.perm_insertionSort (· ≤ ·) l
  have hsort := List.sorted_insertionSort (· ≤ ·) l
  set S := List.insertionSort (· ≤ ·) l with hS
  have hSne : S ≠ [] := by
    intro h
    exact hne ((h ▸ hperm).symm.eq_nil)
  have hmem : ∀ x, x ∈ S ↔ x ∈ l := fun x => hperm.mem_iff
  have hlen : S.length = l.length := hperm.length_eq
  have hsum : S.sum = l.sum := hperm.sum_eq
  unfold calculateStats
  rw [if_neg hne]
  refine ⟨⟨S.head hSne, ?_, ?_, ?_⟩, ⟨S.getLast hSne, ?_, ?_, ?_⟩, ?_, ?_, ?_, ?_⟩
  · exact List.head?_eq_head hSne
  · exact (hmem _).mp (List.head_mem hSne)
  · intro x hx
    exact sorted_head_le hsort hSne x ((hmem x).mpr hx)
  · exact List.getLast?_eq_getLast S hSne
  · exact (hmem _).mp (List.getLast_mem hSne)
  · intro x hx
    exact sorted_le_getLast hsort hSne x ((hmem x).mpr hx)
  · simp only [hsum, hlen]
  · simp only [hlen]
  · rfl
  · rfl

/-- Claim C1: calculateStats on an empty latency sequence yields NaN
min/max/mean, count 0 and the given errors and total; on a non-empty
sequence it yields the true minimum, the true maximum, the arithmetic
mean and the length, with errors and total passed through; the example
latencies 1..5 with errors 2 and total 7 give Stats(1, 5, 3, 5, 2, 7). -/
theorem calculateStats_spec (l : List ℚ) (errs total : ℤ) :
    (l = [] →
      calculateStats l errs total =
        { Min := none, Max := none, Mean := none, Count := 0, Errors := errs, Total := total })
    ∧ (l ≠ [] →
        (∃ m, (calculateStats l errs total).Min = some m ∧ m ∈ l ∧ ∀ x ∈ l, m ≤ x)
        ∧ (∃ M, (calculateStats l errs total).Max = some M ∧ M ∈ l ∧ ∀ x ∈ l, x ≤ M)
        ∧ (calculateStats l errs total).Mean = some (l.sum / (l.length : ℚ))
        ∧ (calculateStats l errs total).Count = (l.length : ℤ)
        ∧ (calculateStats l errs total).Errors = errs
        ∧ (calculateStats l errs total).Total = total)
    ∧ calculateStats [1, 2, 3, 4, 5] 2 7 =
        { Min := some 1, Max := some 5, Mean := some 3, Count := 5, Errors := 2, Total := 7 } := by
  refine ⟨fun h => by simp [calculateStats, h], fun hne => calcStats_nonempty l errs total hne, ?_⟩
  norm_num [calculateStats, List.cons_ne_nil]

/-- Witness for C1 at concrete inputs: the empty list with errors 5 and
total 10, and the list [2, 1]. -/
theorem calculateStats_spec_witness :
    (calculateStats [] 5 10 =
      { Min := none, Max := none, Mean := none, Count := 0, Errors := 5, Total := 10 })
    ∧ (∃ m, (calculateStats [2, 1] 0 2).Min = some m ∧ m ∈ ([2, 1] : List ℚ)
        ∧ ∀ x ∈ ([2, 1] : List ℚ), m ≤ x) :=
  ⟨(calculateStats_spec [] 5 10).1 rfl,
   ((calculateStats_spec [2, 1] 0 2).2.1 (by simp)).1⟩

/-- Claim C8: for a non-empty latency sequence the aggregated Stats
satisfy min ≤ mean ≤ max, and min and max are the true extrema of the
sequence. -/
theorem calculateStats_extrema (l : List ℚ) (errs total : ℤ) (hne : l ≠ []) :
    ∃ m M μ,
      (calculateStats l errs total).Min = some m ∧
      (calculateStats l errs total).Max = some M ∧
      (calculateStats l errs total).Mean = some μ ∧
      m ≤ μ ∧ μ ≤ M ∧
      m ∈ l ∧ (∀ x ∈ l, m ≤ x) ∧ M ∈ l ∧ (∀ x ∈ l, x ≤ M) := by
  obtain ⟨⟨m, hmin, hmmem, hmlb⟩, ⟨M, hmax, hMmem, hMub⟩, hmean, -⟩ :=
    calcStats_nonempty l errs total hne
  obtain ⟨h1, h2⟩ := mean_bounds hne hmlb hMub
  exact ⟨m, M, l.sum / (l.length : ℚ), hmin, hmax, hmean, h1, h2, hmmem, hmlb, hMmem, hMub⟩

/-- Witness for C8 at the concrete sequence [3, 1, 2]. -/
theorem calculateStats_extrema_witness :
    ∃ m M μ,
      (calculateStats [3, 1, 2] 0 3).Min = some m ∧
      (calculateStats [3, 1, 2] 0 3).Max = some M ∧
      (calculateStats [3, 1, 2] 0 3).Mean = some μ ∧
      m ≤ μ ∧ μ ≤ M ∧
      m ∈ ([3, 1, 2] : List ℚ) ∧ (∀ x ∈ ([3, 1, 2] : List ℚ), m ≤ x) ∧
      M ∈ ([3, 1, 2] : List ℚ) ∧ (∀ x ∈ ([3, 1, 2] : List ℚ), x ≤ M) :=
  calculateStats_extrema [3, 1, 2] 0 3 (by simp)

/-- Claim C9: SuccessRate is Count / Total when Total is nonzero and
exactly 0 when Total is zero, so the division-by-zero case is guarded. -/
theorem successRate_spec (s : Stats) :
    (s.Total ≠ 0 → s.SuccessRate = (s.Count : ℚ) / (s.Total : ℚ))
    ∧ (s.Total = 0 → s.SuccessRate = 0) := by
  constructor <;> intro h <;> simp [Stats.SuccessRate, h]

/-- Witness for C9 at concrete Stats values with Total 100 and Total 0. -/
theorem successRate_spec_witness :
    ({ Min := none, Max := none, Mean := none, Count := 50, Errors := 50, Total := 100 : Stats }).SuccessRate
      = ((50 : ℤ) : ℚ) / ((100 : ℤ) : ℚ)
    ∧ ({ Min := none, Max := none, Mean := none, Count := 0, Errors := 0, Total := 0 : Stats }).SuccessRate = 0 :=
  ⟨(successRate_spec _).1 (by decide), (successRate_spec _).2 rfl⟩

theorem retryLoop_all_fail {T E : Type} (v : ℕ → T) (er : ℕ → E)
    (f : ℕ → T × Option E) (jitter : ℕ → ℕ → ℕ) (maxBackoff : ℕ)
    (hf : ∀ i, f i = (v i, some (er i))) :
    ∀ r a b chk last,
      retryLoop f (fun _ => false) jitter maxBackoff (r + 1) a b chk last =
        (.failed (v (a + r)) (er (a + r)),
         failTrace jitter maxBackoff a b r ++ [.attempt (a + r)]) := by
  intro r
  induction r with
  | zero =>
    intro a b chk last
    simp [retryLoop, hf a, failTrace]
  | succ n ih =>
    intro a b chk last
    rw [retryLoop]
    simp only [hf a, Bool.false_eq_true, if_false, Nat.succ_ne_zero, failTrace]
    rw [ih (a + 1) (min (b * 2) maxBackoff) (chk + 2) (some (v a))]
    simp [Nat.add_assoc, Nat.add_comm 1 n]

theorem retryLoop_succeeds {T E : Type} (v : ℕ → T) (er : ℕ → E) (vk : T)
    (f : ℕ → T × Option E) (jitter : ℕ → ℕ → ℕ) (maxBackoff : ℕ) :
    ∀ k r a b chk last, k ≤ r →
      (∀ i, i < k → f (a + i) = (v (a + i), some (er (a + i)))) →
      f (a + k) = (vk, none) →
      retryLoop f (fun _ => false) jitter maxBackoff (r + 1) a b chk last =
        (.ok vk, failTrace jitter maxBackoff a b k ++ [.attempt (a + k)]) := by
  intro k
  induction k with
  | zero =>
    intro r a b chk last _ _ hsucc
    simp only [Nat.add_zero] at hsucc
    simp [retryLoop, hsucc, failTrace]
  | succ n ih =>
    intro r a b chk last hkr hfail hsucc
    obtain ⟨r2, rfl⟩ : ∃ r2, r = r2 + 1 := ⟨r - 1, by omega⟩
    rw [retryLoop]
    have hfa := hfail 0 (Nat.succ_pos n)
    simp only [Nat.add_zero] at hfa
    simp only [hfa, Bool.false_eq_true, if_false, Nat.succ_ne_zero, failTrace]
    rw [ih r2 (a + 1) (min (b * 2) maxBackoff) (chk + 2) (some (v a)) (by omega)
      (fun i hi => by
        rw [show a + 1 + i = a + (i + 1) from by omega]
        exact hfail (i + 1) (by omega))
      (by rw [show a + 1 + n = a + (n + 1) from by omega]; exact hsucc)]
    simp [Nat.add_assoc, Nat.add_comm 1 n]


theorem countAttempts_append (xs ys : List RetryEvent) :
    countAttempts (xs ++ ys) = countAttempts xs + countAttempts ys := by
  simp [countAttempts, List.filter_append]

theorem countAttempts_failTrace (jitter : ℕ → ℕ → ℕ) (maxBackoff : ℕ) :
    ∀ k a b, countAttempts (failTrace jitter maxBackoff a b k) = k := by
  intro k
  induction k with
  | zero => intro a b; simp [failTrace, countAttempts]
  | succ n ih =>
    intro a b
    simp [failTrace, countAttempts] at ih ⊢
    exact ih (a + 1) (min (b * 2) maxBackoff)

theorem waitsOf_append (xs ys : List RetryEvent) :
    waitsOf (xs ++ ys) = waitsOf xs ++ waitsOf ys := by
  simp [waitsOf]

theorem backoffSeq_shift (maxBackoff b : ℕ) :
    ∀ j, backoffSeq maxBackoff (min (b * 2) maxBackoff) j = backoffSeq maxBackoff b (j + 1) := by
  intro j
  induction j with
  | zero => rfl
  | succ n ih =>
    rw [backoffSeq, ih]
    rfl

theorem backoffSeq_pos (maxBackoff b : ℕ) (hb : 0 < b) (hm : 0 < maxBackoff) :
    ∀ j, 0 < backoffSeq maxBackoff b j := by
  intro j
  induction j with
  | zero => exact hb
  | succ n ih =>
    rw [backoffSeq]
    exact lt_min (by omega) hm

theorem waitsOf_cons_attempt (i : ℕ) (tr : List RetryEvent) :
    waitsOf (.attempt i :: tr) = waitsOf tr := by
  simp [waitsOf]

theorem waitsOf_cons_wait (d : ℕ) (tr : List RetryEvent) :
    waitsOf (.wait d :: tr) = d :: waitsOf tr := by
  simp [waitsOf]

theorem waitsOf_failTrace (jitter : ℕ → ℕ → ℕ) (maxBackoff : ℕ) :
    ∀ k a b, waitsOf (failTrace jitter maxBackoff a b k) =
      (List.range k).map fun j =>
        backoffSeq maxBackoff b j / 2 + jitter (a + j) (backoffSeq maxBackoff b j) := by
  intro k
  induction k with
  | zero => intro a b; simp [failTrace, waitsOf]
  | succ n ih =>
    intro a b
    rw [failTrace, waitsOf_cons_attempt, waitsOf_cons_wait,
      ih (a + 1) (min (b * 2) maxBackoff), List.range_succ_eq_map, List.map_cons, List.map_map]
    congr 1
    refine List.map_congr_left fun j hj => ?_
    rw [backoffSeq_shift]
    simp only [Function.comp_apply]
    rw [show a + 1 + j = a + (j + 1) from by omega]


theorem countAttempts_single_attempt (i : ℕ) : countAttempts [.attempt i] = 1 := by
  simp [countAttempts]

theorem waitsOf_single_attempt (i : ℕ) : waitsOf [.attempt i] = [] := by
  simp [waitsOf]

/-- Claim C2: with a never-canceled context and maxRetries at least 1,
an always-failing operation is invoked exactly maxRetries times and the
last attempt value and error are returned; an operation first succeeding
at attempt k < maxRetries returns that success after exactly k + 1
invocations with no backoff wait after the successful attempt. -/
theorem retrier_attempt_counts {T E : Type} (f : ℕ → T × Option E)
    (jitter : ℕ → ℕ → ℕ) (maxRetries : ℤ) (initialBackoff maxBackoff : ℕ)
    (v : ℕ → T) (er : ℕ → E) (hmr : 1 ≤ maxRetries) :
    ((∀ i, f i = (v i, some (er i))) →
      ∃ tr, retryWithBackoff f (fun _ => false) jitter maxRetries initialBackoff maxBackoff =
          (.failed (v (maxRetries.toNat - 1)) (er (maxRetries.toNat - 1)), tr)
        ∧ countAttempts tr = maxRetries.toNat)
    ∧ (∀ k vk, k < maxRetries.toNat →
        (∀ i, i < k → f i = (v i, some (er i))) → f k = (vk, none) →
        ∃ tr, retryWithBackoff f (fun _ => false) jitter maxRetries initialBackoff maxBackoff =
            (.ok vk, tr)
          ∧ countAttempts tr = k + 1 ∧ (waitsOf tr).length = k) := by
  obtain ⟨m, hm⟩ : ∃ m, maxRetries.toNat = m + 1 :=
    ⟨maxRetries.toNat - 1, by omega⟩
  simp only [hm, Nat.add_sub_cancel]
  constructor
  · intro hf
    refine ⟨failTrace jitter maxBackoff 0 (min initialBackoff maxBackoff) m
        ++ [.attempt m], ?_, ?_⟩
    · rw [retryWithBackoff, if_neg (by omega), hm,
        retryLoop_all_fail v er f jitter maxBackoff hf m 0 (min initialBackoff maxBackoff) 0 none]
      simp
    · rw [countAttempts_append, countAttempts_failTrace, countAttempts_single_attempt]
  · intro k vk hk hfail hsucc
    refine ⟨failTrace jitter maxBackoff 0 (min initialBackoff maxBackoff) k
        ++ [.attempt k], ?_, ?_, ?_⟩
    · rw [retryWithBackoff, if_neg (by omega), hm,
        retryLoop_succeeds v er vk f jitter maxBackoff k m 0 (min initialBackoff maxBackoff) 0 none
          (by omega) (fun i hi => by simpa using hfail i hi) (by simpa using hsucc)]
      simp
    · rw [countAttempts_append, countAttempts_failTrace, countAttempts_single_attempt]
    · rw [waitsOf_append, waitsOf_failTrace, waitsOf_single_attempt]
      simp

/-- Claim C3: between consecutive attempts, and never after the last
attempt, the wait is backoff / 2 plus a jitter drawn from [0, backoff),
after which backoff is doubled and capped at maxBackoff; backoffSeq gives
the successive backoff values starting from min(initialBackoff,
maxBackoff). -/
theorem retrier_backoff_schedule {T E : Type} (f : ℕ → T × Option E)
    (jitter : ℕ → ℕ → ℕ) (maxRetries : ℤ) (initialBackoff maxBackoff : ℕ)
    (v : ℕ → T) (er : ℕ → E)
    (hmr : 1 ≤ maxRetries) (hib : 0 < initialBackoff) (hmb : 0 < maxBackoff)
    (hjit : ∀ a b, 0 < b → jitter a b < b)
    (hf : ∀ i, f i = (v i, some (er i))) :
    ∃ tr,
      retryWithBackoff f (fun _ => false) jitter maxRetries initialBackoff maxBackoff =
        (.failed (v (maxRetries.toNat - 1)) (er (maxRetries.toNat - 1)), tr)
      ∧ waitsOf tr = (List.range (maxRetries.toNat - 1)).map (fun j =>
          backoffSeq maxBackoff (min initialBackoff maxBackoff) j / 2 +
            jitter j (backoffSeq maxBackoff (min initialBackoff maxBackoff) j))
      ∧ (∀ j, jitter j (backoffSeq maxBackoff (min initialBackoff maxBackoff) j) <
          backoffSeq maxBackoff (min initialBackoff maxBackoff) j)
      ∧ backoffSeq maxBackoff (min initialBackoff maxBackoff) 0 = min initialBackoff maxBackoff
      ∧ (∀ j, backoffSeq maxBackoff (min initialBackoff maxBackoff) (j + 1) =
          min (backoffSeq maxBackoff (min initialBackoff maxBackoff) j * 2) maxBackoff)
      ∧ tr.getLast? = some (.attempt (maxRetries.toNat - 1)) := by
  obtain ⟨m, hm⟩ : ∃ m, maxRetries.toNat = m + 1 :=
    ⟨maxRetries.toNat - 1, by omega⟩
  have hb0 : 0 < min initialBackoff maxBackoff := lt_min hib hmb
  simp only [hm, Nat.add_sub_cancel]
  refine ⟨failTrace jitter maxBackoff 0 (min initialBackoff maxBackoff) m
      ++ [.attempt m], ?_, ?_, ?_, rfl, fun j => rfl, ?_⟩
  · rw [retryWithBackoff, if_neg (by omega), hm,
      retryLoop_all_fail v er f jitter maxBackoff hf m 0 (min initialBackoff maxBackoff) 0 none]
    simp
  · rw [waitsOf_append, waitsOf_failTrace, waitsOf_single_attempt, List.append_nil]
    exact List.map_congr_left fun j hj => by rw [Nat.zero_add]
  · intro j
    exact hjit j _ (backoffSeq_pos maxBackoff _ hb0 hmb j)
  · simp


theorem retryLoop_cancel_before {T E : Type} (v : ℕ → T) (er : ℕ → E)
    (f : ℕ → T × Option E) (jitter : ℕ → ℕ → ℕ) (maxBackoff : ℕ) :
    ∀ j r a b chk last N, j ≤ r → N = chk + 2 * j →
      (∀ i, i < j → f (a + i) = (v (a + i), some (er (a + i)))) →
      retryLoop f (fun n => decide (N ≤ n)) jitter maxBackoff (r + 1) a b chk last =
        (.canceled (if j = 0 then last else some (v (a + j - 1))),
         failTrace jitter maxBackoff a b j) := by
  intro j
  induction j with
  | zero =>
    intro r a b chk last N _ hN _
    rw [retryLoop, if_pos (by simp; omega)]
    simp [failTrace]
  | succ n ih =>
    intro r a b chk last N hjr hN hfail
    obtain ⟨r2, rfl⟩ : ∃ r2, r = r2 + 1 := ⟨r - 1, by omega⟩
    rw [retryLoop]
    have hfa := hfail 0 (Nat.succ_pos n)
    simp only [Nat.add_zero] at hfa
    rw [if_neg (by simp; omega)]
    simp only [hfa, Nat.succ_ne_zero, if_false]
    rw [if_neg (by simp; omega)]
    rw [ih r2 (a + 1) (min (b * 2) maxBackoff) (chk + 2) (some (v a)) N (by omega) (by omega)
      (fun i hi => by
        rw [show a + 1 + i = a + (i + 1) from by omega]
        exact hfail (i + 1) (by omega))]
    rw [failTrace]
    rcases Nat.eq_zero_or_pos n with hn | hn
    · subst hn
      simp
    · rw [if_neg (by omega), show a + 1 + n - 1 = a + (n + 1) - 1 from by omega]

theorem retryLoop_cancel_during_wait {T E : Type} (v : ℕ → T) (er : ℕ → E)
    (f : ℕ → T × Option E) (jitter : ℕ → ℕ → ℕ) (maxBackoff : ℕ) :
    ∀ j r a b chk last N, j < r → N = chk + 2 * j + 1 →
      (∀ i, i ≤ j → f (a + i) = (v (a + i), some (er (a + i)))) →
      retryLoop f (fun n => decide (N ≤ n)) jitter maxBackoff (r + 1) a b chk last =
        (.canceled (some (v (a + j))),
         failTrace jitter maxBackoff a b j ++ [.attempt (a + j)]) := by
  intro j
  induction j with
  | zero =>
    intro r a b chk last N hjr hN hfail
    have hfa := hfail 0 (Nat.le_refl 0)
    simp only [Nat.add_zero] at hfa
    rw [retryLoop, if_neg (by simp; omega)]
    simp only [hfa]
    rw [if_neg (by omega), if_pos (by simp; omega)]
    simp [failTrace]
  | succ n ih =>
    intro r a b chk last N hjr hN hfail
    obtain ⟨r2, rfl⟩ : ∃ r2, r = r2 + 1 := ⟨r - 1, by omega⟩
    rw [retryLoop]
    have hfa := hfail 0 (Nat.zero_le _)
    simp only [Nat.add_zero] at hfa
    rw [if_neg (by simp; omega)]
    simp only [hfa, Nat.succ_ne_zero, if_false]
    rw [if_neg (by simp; omega)]
    rw [ih r2 (a + 1) (min (b * 2) maxBackoff) (chk + 2) (some (v a)) N (by omega) (by omega)
      (fun i hi => by
        rw [show a + 1 + i = a + (i + 1) from by omega]
        exact hfail (i + 1) (by omega))]
    rw [failTrace]
    rw [show a + 1 + n = a + (n + 1) from by omega]
    simp

/-- Claim C4: retryWithBackoff checks cancellation before each attempt
and during each backoff wait; in either case it returns the cancellation
error (the canceled outcome, not the failed or ok outcome) immediately,
having invoked the operation only for the attempts already started.  The
check before attempt j is check number 2j and the check during the wait
after attempt j is check number 2j + 1. -/
theorem retrier_cancellation {T E : Type} (f : ℕ → T × Option E)
    (jitter : ℕ → ℕ → ℕ) (maxRetries : ℤ) (initialBackoff maxBackoff : ℕ)
    (v : ℕ → T) (er : ℕ → E) (hmr : 1 ≤ maxRetries) :
    (∀ j, j < maxRetries.toNat →
      (∀ i, i < j → f i = (v i, some (er i))) →
      ∃ lv tr,
        retryWithBackoff f (fun n => decide (2 * j ≤ n)) jitter maxRetries
            initialBackoff maxBackoff = (.canceled lv, tr)
        ∧ countAttempts tr = j)
    ∧ (∀ j, j + 1 < maxRetries.toNat →
      (∀ i, i ≤ j → f i = (v i, some (er i))) →
      ∃ tr,
        retryWithBackoff f (fun n => decide (2 * j + 1 ≤ n)) jitter maxRetries
            initialBackoff maxBackoff = (.canceled (some (v j)), tr)
        ∧ countAttempts tr = j + 1 ∧ (waitsOf tr).length = j) := by
  obtain ⟨m, hm⟩ : ∃ m, maxRetries.toNat = m + 1 :=
    ⟨maxRetries.toNat - 1, by omega⟩
  constructor
  · intro j hj hfail
    refine ⟨if j = 0 then none else some (v (j - 1)),
      failTrace jitter maxBackoff 0 (min initialBackoff maxBackoff) j, ?_, ?_⟩
    · rw [retryWithBackoff, if_neg (by omega), hm,
        retryLoop_cancel_before v er f jitter maxBackoff j m 0
          (min initialBackoff maxBackoff) 0 none (2 * j) (by omega) (by omega)
          (fun i hi => by simpa using hfail i hi)]
      simp
    · exact countAttempts_failTrace jitter maxBackoff j 0 (min initialBackoff maxBackoff)
  · intro j hj hfail
    refine ⟨failTrace jitter maxBackoff 0 (min initialBackoff maxBackoff) j
        ++ [.attempt j], ?_, ?_, ?_⟩
    · rw [retryWithBackoff, if_neg (by omega), hm,
        retryLoop_cancel_during_wait v er f jitter maxBackoff j m 0
          (min initialBackoff maxBackoff) 0 none (2 * j + 1) (by omega) (by omega)
          (fun i hi => by simpa using hfail i hi)]
      simp
    · rw [countAttempts_append, countAttempts_failTrace, countAttempts_single_attempt]
    · rw [waitsOf_append, waitsOf_failTrace, waitsOf_single_attempt]
      simp

/-- Witness for C2: maxRetries 3 with an always-failing operation, and
with an operation succeeding at attempt 1. -/
theorem retrier_attempt_counts_witness :
    (∃ tr, retryWithBackoff (fun i => ((i : ℕ), some (i : ℕ))) (fun _ => false)
        (fun _ _ => 0) 3 4 8 = (.failed ((3 : ℤ).toNat - 1) ((3 : ℤ).toNat - 1), tr)
      ∧ countAttempts tr = (3 : ℤ).toNat)
    ∧ (∃ tr, retryWithBackoff (fun i => ((i : ℕ), if i < 1 then some (i : ℕ) else none))
        (fun _ => false) (fun _ _ => 0) 3 4 8 = (.ok 1, tr)
      ∧ countAttempts tr = 1 + 1 ∧ (waitsOf tr).length = 1) :=
  ⟨(retrier_attempt_counts (fun i => ((i : ℕ), some (i : ℕ))) (fun _ _ => 0) 3 4 8
      id id (by decide)).1 (fun i => rfl),
   (retrier_attempt_counts (fun i => ((i : ℕ), if i < 1 then some (i : ℕ) else none))
      (fun _ _ => 0) 3 4 8 id id (by decide)).2 1 1 (by decide)
      (fun i hi => by
        have h0 : i = 0 := by omega
        subst h0
        rfl)
      rfl⟩

/-- Witness for C3: maxRetries 3, initial backoff 4, max backoff 8, zero
jitter, always-failing operation. -/
theorem retrier_backoff_schedule_witness :
    ∃ tr, retryWithBackoff (fun i => ((i : ℕ), some (i : ℕ))) (fun _ => false)
        (fun _ _ => 0) 3 4 8 = (.failed ((3 : ℤ).toNat - 1) ((3 : ℤ).toNat - 1), tr)
      ∧ waitsOf tr = (List.range ((3 : ℤ).toNat - 1)).map
          (fun j => backoffSeq 8 (min 4 8) j / 2 + 0)
      ∧ (∀ j, (0 : ℕ) < backoffSeq 8 (min 4 8) j)
      ∧ backoffSeq 8 (min 4 8) 0 = min 4 8
      ∧ (∀ j, backoffSeq 8 (min 4 8) (j + 1) = min (backoffSeq 8 (min 4 8) j * 2) 8)
      ∧ tr.getLast? = some (.attempt ((3 : ℤ).toNat - 1)) :=
  retrier_backoff_schedule (fun i => ((i : ℕ), some (i : ℕ))) (fun _ _ => 0) 3 4 8
    id id (by decide) (by decide) (by decide) (fun a b hb => hb) (fun i => rfl)

/-- Witness for C4: cancellation observed at the check before attempt 1,
and at the check during the wait after attempt 0, with maxRetries 3. -/
theorem retrier_cancellation_witness :
    (∃ lv tr, retryWithBackoff (fun i => ((i : ℕ), some (i : ℕ)))
        (fun n => decide (2 * 1 ≤ n)) (fun _ _ => 0) 3 4 8 = (.canceled lv, tr)
      ∧ countAttempts tr = 1)
    ∧ (∃ tr, retryWithBackoff (fun i => ((i : ℕ), some (i : ℕ)))
        (fun n => decide (2 * 0 + 1 ≤ n)) (fun _ _ => 0) 3 4 8 = (.canceled (some 0), tr)
      ∧ countAttempts tr = 0 + 1 ∧ (waitsOf tr).length = 0) :=
  ⟨(retrier_cancellation (fun i => ((i : ℕ), some (i : ℕ))) (fun _ _ => 0) 3 4 8
      id id (by decide)).1 1 (by decide) (fun i hi => rfl),
   (retrier_cancellation (fun i => ((i : ℕ), some (i : ℕ))) (fun _ _ => 0) 3 4 8
      id id (by decide)).2 0 (by decide) (fun i hi => rfl)⟩

/-- Claim C5: QueryDNS with an empty domain fails immediately with the
empty-domain validation error and duration 0, acquiring no semaphore slot
and issuing no network lookup, retry attempt or backoff wait, for every
timeout and retry setting. -/
theorem queryDNS_empty_domain (concurrency : ℕ) (net : ℕ → ℕ × LookupResult)
    (canceled : ℕ → Bool) (jitter : ℕ → ℕ → ℕ) (ctxErrIsDeadline : Bool)
    (timeout : ℕ) (retry : Bool) :
    QueryDNS concurrency net canceled jitter ctxErrIsDeadline "" timeout retry =
      ((0, some .emptyDomain), []) := by
  rfl

/-- Claim C10: every QueryDNS result pairs a duration 0 with its error
when the error is non-nil, so a nonzero duration is returned only
together with a nil error. -/
theorem queryDNS_zero_duration_on_error (concurrency : ℕ) (net : ℕ → ℕ × LookupResult)
    (canceled : ℕ → Bool) (jitter : ℕ → ℕ → ℕ) (ctxErrIsDeadline : Bool)
    (domain : String) (timeout : ℕ) (retry : Bool) :
    (QueryDNS concurrency net canceled jitter ctxErrIsDeadline domain timeout retry).1.1 = 0
    ∨ (QueryDNS concurrency net canceled jitter ctxErrIsDeadline domain timeout retry).1.2 = none := by
  by_cases hd : domain = ""
  · left
    simp [QueryDNS, hd]
  · unfold QueryDNS
    rw [if_neg hd]
    rcases hr : (retryWithBackoff (tryQuery net timeout) canceled jitter
        (if retry then 10 else 1) (2 * nsPerSecond) (60 * nsPerSecond)).1
      with v | ⟨v, e⟩ | lv | _
    · right
      simp [hr]
    · left
      simp [hr]
    · left
      simp [hr]
    · left
      simp [hr]

theorem countWarmup_append (d : String) (xs ys : List BenchEvent) :
    countWarmup d (xs ++ ys) = countWarmup d xs + countWarmup d ys := by
  simp [countWarmup, List.filter_append]

theorem countWarmup_replicate_warmup (d d2 : String) (n t : ℕ) (r : Bool) :
    countWarmup d (List.replicate n (BenchEvent.warmupQuery d2 t r)) =
      if d2 == d then n else 0 := by
  simp only [countWarmup, List.filter_replicate]
  split <;> simp

theorem countWarmup_measured (d d2 : String) (t : ℕ) (r : Bool) :
    countWarmup d [BenchEvent.measuredQuery d2 t r] = 0 := by
  simp [countWarmup]

theorem countWarmup_flatMap_const (d : String) (X : List BenchEvent) (rs : List ℕ) :
    countWarmup d (rs.flatMap fun _ => X) = rs.length * countWarmup d X := by
  induction rs with
  | nil => simp [countWarmup]
  | cons x rest ih =>
    rw [List.flatMap_cons, countWarmup_append, ih, List.length_cons, Nat.succ_mul,
      Nat.add_comm]

theorem countWarmup_domains_flatMap (cfg : Config) (hw : 0 < cfg.WarmupRuns) (d : String)
    (domains : List String) :
    countWarmup d (domains.flatMap fun d2 => benchTaskTrace cfg d2) =
      domains.count d * cfg.WarmupRuns := by
  induction domains with
  | nil => simp [countWarmup]
  | cons d2 rest ih =>
    rw [List.flatMap_cons, countWarmup_append, ih, benchTaskTrace, if_pos hw,
      countWarmup_append, countWarmup_replicate_warmup, countWarmup_measured,
      List.count_cons]
    rcases Bool.eq_false_or_eq_true (d2 == d) with h | h <;>
      simp [h, Nat.add_mul, Nat.add_comm]

theorem benchTrace_eq (cfg : Config) (domains : List String)
    (measure : ℕ → String → Option ℚ) :
    (benchmarkResolver cfg domains measure).2 =
      (List.range cfg.Repeats).flatMap fun _ =>
        domains.flatMap fun d => benchTaskTrace cfg d := by
  simp [benchmarkResolver, benchTasks, List.flatMap_assoc, List.flatMap_map]

/-- Counterexample to C6 as stated: with Repeats 2 and WarmupRuns 1, the
single domain of the pass receives 2 warmup queries, not WarmupRuns = 1,
because every (repeat, domain) task performs its own warmup batch. -/
theorem benchmark_warmup_counterexample :
    countWarmup "example.com"
      (benchmarkResolver
        { Repeats := 2, LookupTimeout := 5000000000, MaxConcurrency := 1, WarmupRuns := 1 }
        ["example.com"] fun _ _ => none).2 = 2
    ∧ ¬ countWarmup "example.com"
      (benchmarkResolver
        { Repeats := 2, LookupTimeout := 5000000000, MaxConcurrency := 1, WarmupRuns := 1 }
        ["example.com"] fun _ _ => none).2 =
      ({ Repeats := 2, LookupTimeout := 5000000000, MaxConcurrency := 1, WarmupRuns := 1 } :
        Config).WarmupRuns := by
  constructor <;> decide

/-- Claim C6 amended: when WarmupRuns > 0, each (repeat, domain) worker
task of benchmarkResolver runs WarmupRuns warmup attempts with a fixed 1
second timeout and retry disabled, completed before that task's own
measured query, so a domain occurring once in the list receives Repeats *
WarmupRuns warmup queries per server pass; every warmup outcome is
discarded: the resulting Stats (count, errors and total included) are the
same as with warmup disabled. -/
theorem benchmark_warmup_spec (cfg : Config) (domains : List String)
    (measure : ℕ → String → Option ℚ) (hw : 0 < cfg.WarmupRuns) :
    ((benchmarkResolver cfg domains measure).2 =
      (List.range cfg.Repeats).flatMap fun _ =>
        domains.flatMap fun d =>
          List.replicate cfg.WarmupRuns (BenchEvent.warmupQuery d nsPerSecond false)
            ++ [BenchEvent.measuredQuery d cfg.LookupTimeout true])
    ∧ (∀ d, countWarmup d (benchmarkResolver cfg domains measure).2 =
        domains.count d * cfg.Repeats * cfg.WarmupRuns)
    ∧ (∀ d t r, BenchEvent.warmupQuery d t r ∈ (benchmarkResolver cfg domains measure).2 →
        t = nsPerSecond ∧ r = false)
    ∧ (benchmarkResolver cfg domains measure).1 =
        (benchmarkResolver { cfg with WarmupRuns := 0 } domains measure).1 := by
  have htr := benchTrace_eq cfg domains measure
  refine ⟨?_, ?_, ?_, rfl⟩
  · rw [htr]
    simp [benchTaskTrace, hw]
  · intro d
    rw [htr, countWarmup_flatMap_const, countWarmup_domains_flatMap cfg hw d,
      List.length_range]
    ring
  · intro d t r hmem
    rw [htr] at hmem
    simp only [List.mem_flatMap, List.mem_range, benchTaskTrace, if_pos hw,
      List.mem_append, List.mem_replicate, List.mem_singleton] at hmem
    obtain ⟨a, -, d2, -, hcase⟩ := hmem
    rcases hcase with ⟨-, heq⟩ | heq
    · cases heq
      exact ⟨rfl, rfl⟩
    · cases heq

/-- Witness for the amended C6 at Repeats 2, WarmupRuns 1 and one
domain. -/
theorem benchmark_warmup_spec_witness :
    ((benchmarkResolver ⟨2, 5000000000, 1, 1⟩ ["example.com"] fun _ _ => none).2 =
      (List.range 2).flatMap fun _ =>
        (["example.com"] : List String).flatMap fun d =>
          List.replicate 1 (BenchEvent.warmupQuery d nsPerSecond false)
            ++ [BenchEvent.measuredQuery d 5000000000 true])
    ∧ (∀ d, countWarmup d
        (benchmarkResolver ⟨2, 5000000000, 1, 1⟩ ["example.com"] fun _ _ => none).2 =
        (["example.com"] : List String).count d * 2 * 1)
    ∧ (∀ d t r, BenchEvent.warmupQuery d t r ∈
        (benchmarkResolver ⟨2, 5000000000, 1, 1⟩ ["example.com"] fun _ _ => none).2 →
        t = nsPerSecond ∧ r = false)
    ∧ (benchmarkResolver ⟨2, 5000000000, 1, 1⟩ ["example.com"] fun _ _ => none).1 =
        (benchmarkResolver ⟨2, 5000000000, 1, 0⟩ ["example.com"] fun _ _ => none).1 :=
  benchmark_warmup_spec ⟨2, 5000000000, 1, 1⟩ ["example.com"] (fun _ _ => none) (by decide)

theorem runLoop_canceled (bench : DNSServer → Stats) (total : ℕ) :
    ∀ (k : ℕ) (ss : List DNSServer) (idx : ℕ), k < ss.length →
      ∃ calls, runLoop bench (idx + k) total ss idx =
        ((ss.take k).map (fun s => ⟨s, bench s⟩), some .canceledErr, calls)
        ∧ ∀ c ∈ calls, c.isOnComplete = false := by
  intro k
  induction k with
  | zero =>
    intro ss idx hk
    cases ss with
    | nil => simp at hk
    | cons s rest =>
      refine ⟨[], ?_, by simp⟩
      rw [runLoop, if_pos (by omega)]
      simp
  | succ n ih =>
    intro ss idx hk
    cases ss with
    | nil => simp at hk
    | cons s rest =>
      obtain ⟨calls, hloop, hnoc⟩ := ih rest (idx + 1) (by simpa using hk)
      refine ⟨.onResolverStart s (idx + 1) total :: .onResolverDone s (bench s) :: calls,
        ?_, ?_⟩
      · rw [runLoop, if_neg (by omega)]
        rw [show idx + 1 + n = idx + (n + 1) from by omega] at hloop
        rw [hloop]
        simp
      · intro c hc
        rcases List.mem_cons.mp hc with h | h
        · simp [h, ReporterCall.isOnComplete]
        · rcases List.mem_cons.mp h with h2 | h2
          · simp [h2, ReporterCall.isOnComplete]
          · exact hnoc c h2

/-- Claim C7: runBenchmark checks cancellation before each server pass;
when the signal fires after i completed servers and before server i + 1
starts (nonempty servers and domains, i below the server count), it
returns exactly the i BenchmarkResults of the completed servers in the
caller-supplied order together with the cancellation error, and
OnComplete is called exactly once, with those partial results and that
error. -/
theorem runBenchmark_cancellation (bench : DNSServer → Stats)
    (servers : List DNSServer) (domains : List String) (i : ℕ)
    (hs : servers ≠ []) (hd : domains ≠ []) (hi : i < servers.length) :
    ∃ calls,
      runBenchmark bench i servers domains =
        (((servers.take i).map fun s => ⟨s, bench s⟩, some .canceledErr), calls)
      ∧ calls.filter (fun c => c.isOnComplete) =
          [ReporterCall.onComplete ((servers.take i).map fun s => ⟨s, bench s⟩)
            (some .canceledErr)]
      ∧ ((servers.take i).map fun s => (⟨s, bench s⟩ : BenchmarkResult)).length = i := by
  obtain ⟨calls, hloop, hnoc⟩ := runLoop_canceled bench servers.length i servers 0 hi
  rw [Nat.zero_add] at hloop
  refine ⟨.onStart servers.length domains :: calls
      ++ [.onComplete ((servers.take i).map fun s => ⟨s, bench s⟩) (some .canceledErr)],
    ?_, ?_, ?_⟩
  · rw [runBenchmark, if_neg hs, if_neg hd]
    simp only [hloop]
  · have h1 : calls.filter (fun c => c.isOnComplete) = [] :=
      List.filter_eq_nil_iff.mpr (fun c hc => by simp [hnoc c hc])
    simp [List.filter_cons, List.filter_append, h1, ReporterCall.isOnComplete]
    intro a ha
    exact hnoc a ha
  · rw [List.length_map, List.length_take]
    omega

/-- Witness for C7: two servers, one domain, cancellation firing after
the first server completes. -/
theorem runBenchmark_cancellation_witness :
    ∃ calls,
      runBenchmark (fun _ => ⟨none, none, none, 0, 0, 0⟩) 1
          [⟨"A", "1.1.1.1"⟩, ⟨"B", "8.8.8.8"⟩] ["example.com"] =
        (((([⟨"A", "1.1.1.1"⟩, ⟨"B", "8.8.8.8"⟩] : List DNSServer).take 1).map
            fun s => ⟨s, ⟨none, none, none, 0, 0, 0⟩⟩, some .canceledErr), calls)
      ∧ calls.filter (fun c => c.isOnComplete) =
          [ReporterCall.onComplete
            ((([⟨"A", "1.1.1.1"⟩, ⟨"B", "8.8.8.8"⟩] : List DNSServer).take 1).map
              fun s => ⟨s, ⟨none, none, none, 0, 0, 0⟩⟩)
            (some .canceledErr)]
      ∧ ((([⟨"A", "1.1.1.1"⟩, ⟨"B", "8.8.8.8"⟩] : List DNSServer).take 1).map
          fun s => (⟨s, ⟨none, none, none, 0, 0, 0⟩⟩ : BenchmarkResult)).length = 1 :=
  runBenchmark_cancellation (fun _ => ⟨none, none, none, 0, 0, 0⟩)
    [⟨"A", "1.1.1.1"⟩, ⟨"B", "8.8.8.8"⟩] ["example.com"] 1
    (by simp) (by simp) (by simp)

end DnsBench
